import Mathlib

/-!
# Verification of the 21cmEMU parameter-marshaling layer

A shallow embedding, over exact rational arithmetic, of the pure logic in
`src/py21cmemu/inputs.py`, `src/py21cmemu/outputs.py`,
`src/py21cmemu/properties.py` and `src/py21cmemu/get_emulator.py`.

Modelling conventions:
* numpy 1-D arrays are `List ℚ`; 2-D arrays (batches) are `List (List ℚ)`
  (row = one sample);
* floating-point numbers are modelled by exact rationals; `np.nan` is
  modelled by `Option ℚ` with `none` for NaN (`10 ** nan = nan` becomes
  `Option.map`);
* `10 ** x` (irrational in general) is kept abstract as a parameter
  `pow10 : ℚ → ℚ`; no claim below depends on its value;
* Python exceptions become `Except` values; the first raised exception
  propagates;
* the numeric constants archive `emulator_constants.npz` is a binary
  artifact that is not part of the source tree, so the per-coordinate
  `limits`, the redshift grid `zs` and the mean/std constants are kept as
  explicit parameters throughout.
-/

set_option linter.unusedVariables false
set_option linter.unusedSectionVars false

namespace Py21cmEMU

/-! ## Generic list helpers -/

/-- In-place update of one entry of a row: `row[i] = f row[i]`
(identity when `i` is out of range, which never happens on the
full-length rows the emulator handles). -/
def modifyIdx {α : Type} (f : α → α) : ℕ → List α → List α
  | _, [] => []
  | 0, x :: xs => f x :: xs
  | n + 1, x :: xs => x :: modifyIdx f n xs

@[simp]
theorem modifyIdx_nil {α : Type} (f : α → α) (n : ℕ) : modifyIdx f n [] = [] := by
  cases n <;> rfl

@[simp]
theorem modifyIdx_zero_cons {α : Type} (f : α → α) (x : α) (xs : List α) :
    modifyIdx f 0 (x :: xs) = f x :: xs := rfl

@[simp]
theorem modifyIdx_succ_cons {α : Type} (f : α → α) (n : ℕ) (x : α) (xs : List α) :
    modifyIdx f (n + 1) (x :: xs) = x :: modifyIdx f n xs := rfl

theorem modifyIdx_modifyIdx {α : Type} (f g : α → α) (n : ℕ) (xs : List α) :
    modifyIdx f n (modifyIdx g n xs) = modifyIdx (fun x => f (g x)) n xs := by
  induction xs generalizing n with
  | nil => simp
  | cons x xs ih =>
    cases n with
    | zero => simp
    | succ n => simp [ih]

theorem modifyIdx_id {α : Type} (f : α → α) (h : ∀ x, f x = x) (n : ℕ) (xs : List α) :
    modifyIdx f n xs = xs := by
  induction xs generalizing n with
  | nil => simp
  | cons x xs ih =>
    cases n with
    | zero => simp [h]
    | succ n => simp [ih]

@[simp]
theorem modifyIdx_length {α : Type} (f : α → α) (n : ℕ) (xs : List α) :
    (modifyIdx f n xs).length = xs.length := by
  induction xs generalizing n with
  | nil => simp
  | cons x xs ih =>
    cases n with
    | zero => simp
    | succ n => simp [ih]

/-! ## `inputs.py`: the parameter normalizer

`DefaultEmulatorInput.normalize` (src/py21cmemu/inputs.py lines 126-144)
performs, on a 2-D batch `theta`:
`theta[:, 7] /= 1000`, then `theta -= limits[:, 0]`, then
`theta /= limits[:, 1] - limits[:, 0]`, each step being an elementwise numpy
operation over the batch.  `undo_normalization` (lines 146-164) inverts the
three steps in reverse order.  `RadioEmulatorInput.normalize` /
`undo_normalization` (lines 180-216) apply only the affine steps.
The per-coordinate limits are a `List (K × K)` of `(lo, hi)` pairs. -/

section Inputs

variable {K : Type} [Field K]

/-- Elementwise `theta -= limits[:, 0]` on one row. -/
def subLoRow (limits : List (K × K)) (row : List K) : List K :=
  List.zipWith (fun x l => x - l.1) row limits

/-- Elementwise `theta /= limits[:, 1] - limits[:, 0]` on one row. -/
def divRangeRow (limits : List (K × K)) (row : List K) : List K :=
  List.zipWith (fun x l => x / (l.2 - l.1)) row limits

/-- Elementwise `theta *= limits[:, 1] - limits[:, 0]` on one row. -/
def mulRangeRow (limits : List (K × K)) (row : List K) : List K :=
  List.zipWith (fun x l => x * (l.2 - l.1)) row limits

/-- Elementwise `theta += limits[:, 0]` on one row. -/
def addLoRow (limits : List (K × K)) (row : List K) : List K :=
  List.zipWith (fun x l => x + l.1) row limits

/-- The shared per-coordinate min-max affine map
`x ↦ (x - lo) / (hi - lo)`, written as one pass; the spec describes the
normalizers as this map (possibly preceded by pointwise transforms). -/
def affineRow (limits : List (K × K)) (row : List K) : List K :=
  List.zipWith (fun x l => (x - l.1) / (l.2 - l.1)) row limits

/-- `DefaultEmulatorInput.normalize`: `theta[:, 7] /= 1000`, subtract the
lower limits, divide by the ranges. -/
def DefaultEmulatorInput.normalize (limits : List (K × K)) (theta : List (List K)) :
    List (List K) :=
  ((theta.map (modifyIdx (fun x => x / 1000) 7)).map (subLoRow limits)).map
    (divRangeRow limits)

/-- `DefaultEmulatorInput.undo_normalization`: multiply by the ranges, add
the lower limits, `theta[:, 7] *= 1000`. -/
def DefaultEmulatorInput.undo_normalization (limits : List (K × K))
    (theta : List (List K)) : List (List K) :=
  ((theta.map (mulRangeRow limits)).map (addLoRow limits)).map
    (modifyIdx (fun x => x * 1000) 7)

/-- `RadioEmulatorInput.normalize`: subtract the lower limits, divide by
the ranges; no unit conversion and no log transform. -/
def RadioEmulatorInput.normalize (limits : List (K × K)) (theta : List (List K)) :
    List (List K) :=
  (theta.map (subLoRow limits)).map (divRangeRow limits)

/-- `RadioEmulatorInput.undo_normalization`: multiply by the ranges, add
the lower limits. -/
def RadioEmulatorInput.undo_normalization (limits : List (K × K))
    (theta : List (List K)) : List (List K) :=
  (theta.map (mulRangeRow limits)).map (addLoRow limits)

/-- Fusing two consecutive elementwise-with-limits passes into one. -/
theorem zipWith_zipWith_limits (f g : K → K × K → K) (limits : List (K × K))
    (row : List K) :
    List.zipWith g (List.zipWith f row limits) limits =
      List.zipWith (fun x l => g (f x l) l) row limits := by
  induction row generalizing limits with
  | nil => simp
  | cons x xs ih =>
    cases limits with
    | nil => simp
    | cons l ls => simp [ih]

theorem subLo_then_divRange (limits : List (K × K)) (row : List K) :
    divRangeRow limits (subLoRow limits row) = affineRow limits row := by
  simp [divRangeRow, subLoRow, affineRow, zipWith_zipWith_limits]

/-- One coordinate of the round trip: `((x - lo) / (hi - lo)) * (hi - lo) + lo = x`. -/
theorem affine_coord_round_trip (lo hi x : K) (h : hi - lo ≠ 0) :
    (x - lo) / (hi - lo) * (hi - lo) + lo = x := by
  field_simp

/-- Row-level round trip of the shared affine map. -/
theorem affine_row_round_trip (limits : List (K × K)) (row : List K)
    (hne : ∀ l ∈ limits, l.2 - l.1 ≠ 0) (hlen : row.length = limits.length) :
    addLoRow limits (mulRangeRow limits (affineRow limits row)) = row := by
  induction row generalizing limits with
  | nil => simp [affineRow, mulRangeRow, addLoRow]
  | cons x xs ih =>
    cases limits with
    | nil => simp at hlen
    | cons l ls =>
      have hl : l.2 - l.1 ≠ 0 := hne l (List.mem_cons_self l ls)
      simp only [affineRow, mulRangeRow, addLoRow, List.zipWith_cons_cons]
      rw [show List.zipWith (fun x l => (x - l.1) / (l.2 - l.1)) xs ls =
        affineRow ls xs from rfl]
      rw [show ∀ r, List.zipWith (fun x l => x * (l.2 - l.1)) r ls =
        mulRangeRow ls r from fun r => rfl]
      rw [show ∀ r, List.zipWith (fun x l => x + l.1) r ls =
        addLoRow ls r from fun r => rfl]
      rw [affine_coord_round_trip l.1 l.2 x hl]
      rw [ih ls (fun p hp => hne p (List.mem_cons_of_mem l hp)) (by simpa using hlen)]

end Inputs

/-- The radio-background model's per-coordinate limits, written literally in
`properties.py` (line 123): `np.array([[-2, 6], [33, 45], [-5, 0], [-6, -1], [0, 10]])`. -/
def RadioBackgroundEmulatorProperties.limits : List (ℚ × ℚ) :=
  [(-2, 6), (33, 45), (-5, 0), (-6, -1), (0, 10)]

/-- The spec's description of the default normalizer: a base-10 logarithm on
the four log-scaled coordinates (indices 0, 2, 4, 6), the keV rescaling of
coordinate 7, then the shared min-max affine map.  This definition follows
the spec's words (and the historical `emulator.py` line 314), not
`inputs.py`; it exists to be compared against
`DefaultEmulatorInput.normalize`. -/
noncomputable def log10Row (row : List ℝ) : List ℝ :=
  row.enum.map fun p =>
    if p.1 = 0 ∨ p.1 = 2 ∨ p.1 = 4 ∨ p.1 = 6 then Real.logb 10 p.2 else p.2

/-- The whole spec-described default normalizer (see `log10Row`). -/
noncomputable def DefaultEmulatorInput.normalizeSpec (limits : List (ℝ × ℝ))
    (theta : List (List ℝ)) : List (List ℝ) :=
  theta.map fun row => affineRow limits (modifyIdx (fun x => x / 1000) 7 (log10Row row))

/-- Nine copies of the unit interval, a concrete stand-in for the default
model's limits (whose numeric values live in the binary constants archive,
outside the source tree) used by concrete counterexamples. -/
def unitLimitsNine : List (ℝ × ℝ) :=
  [(0, 1), (0, 1), (0, 1), (0, 1), (0, 1), (0, 1), (0, 1), (0, 1), (0, 1)]

/-- C2, corrected: `DefaultEmulatorInput.normalize` applies NO log10
transform.  On the batch `[[10, 0, ..., 0]]` with unit limits the code
returns 10 in coordinate 0 where the claimed log10-then-affine map returns
`log10 10 = 1`. -/
theorem claim_C2_counterexample :
    DefaultEmulatorInput.normalize unitLimitsNine [[10, 0, 0, 0, 0, 0, 0, 0, 0]] ≠
      DefaultEmulatorInput.normalizeSpec unitLimitsNine
        [[10, 0, 0, 0, 0, 0, 0, 0, 0]] := by
  intro h
  have h0 := congrArg (fun l => (l.headD []).headD 0) h
  simp [DefaultEmulatorInput.normalize, DefaultEmulatorInput.normalizeSpec,
    log10Row, subLoRow, divRangeRow, affineRow, modifyIdx, unitLimitsNine,
    List.enum, List.enumFrom, Real.logb_self_eq_one] at h0

/-- C2, amended: `DefaultEmulatorInput.normalize` applies, to every 2-D
parameter batch, only a rescaling by 1/1000 of coordinate 7 (NU_X_THRESH)
before the shared per-coordinate min-max affine map — no log10 transform —
while `RadioEmulatorInput.normalize` applies only the shared affine map. -/
theorem claim_C2 (limits : List (ℚ × ℚ)) (theta : List (List ℚ)) :
    DefaultEmulatorInput.normalize limits theta =
        theta.map (fun row => affineRow limits (modifyIdx (fun x => x / 1000) 7 row)) ∧
      RadioEmulatorInput.normalize limits theta = theta.map (affineRow limits) := by
  constructor
  · simp only [DefaultEmulatorInput.normalize, List.map_map]
    apply List.map_congr_left
    intro row hrow
    simp [Function.comp, subLo_then_divRange]
  · simp only [RadioEmulatorInput.normalize, List.map_map]
    apply List.map_congr_left
    intro row hrow
    simp [Function.comp, subLo_then_divRange]

/-- Row-level round trip of the default normalizer. -/
theorem default_row_round_trip (limits : List (ℚ × ℚ)) (row : List ℚ)
    (hne : ∀ l ∈ limits, l.2 - l.1 ≠ 0) (hlen : row.length = limits.length) :
    modifyIdx (fun x => x * 1000) 7
        (addLoRow limits (mulRangeRow limits
          (divRangeRow limits (subLoRow limits
            (modifyIdx (fun x => x / 1000) 7 row))))) = row := by
  rw [subLo_then_divRange]
  rw [affine_row_round_trip limits _ hne (by simp [hlen])]
  rw [modifyIdx_modifyIdx]
  exact modifyIdx_id _ (fun x => by norm_num) 7 row

/-- C3: for every batch whose rows have the model's expected parameter
count (and nondegenerate limits), `undo_normalization ∘ normalize` is the
identity over exact arithmetic, for both model variants. -/
theorem claim_C3 (limits : List (ℚ × ℚ)) (theta : List (List ℚ))
    (hne : ∀ l ∈ limits, l.2 - l.1 ≠ 0)
    (hlen : ∀ r ∈ theta, r.length = limits.length) :
    DefaultEmulatorInput.undo_normalization limits
        (DefaultEmulatorInput.normalize limits theta) = theta ∧
      RadioEmulatorInput.undo_normalization limits
        (RadioEmulatorInput.normalize limits theta) = theta := by
  constructor
  · simp only [DefaultEmulatorInput.undo_normalization,
      DefaultEmulatorInput.normalize, List.map_map]
    rw [show ∀ (f : List ℚ → List ℚ), theta.map f = theta.map f from fun f => rfl]
    conv_rhs => rw [← List.map_id theta]
    apply List.map_congr_left
    intro row hrow
    exact default_row_round_trip limits row hne (hlen row hrow)
  · simp only [RadioEmulatorInput.undo_normalization,
      RadioEmulatorInput.normalize, List.map_map]
    conv_rhs => rw [← List.map_id theta]
    apply List.map_congr_left
    intro row hrow
    simp only [Function.comp]
    rw [subLo_then_divRange]
    exact affine_row_round_trip limits row hne (hlen row hrow)

/-- Concrete instance of claim C3 at the radio-background model's literal
limits and a one-row batch. -/
theorem claim_C3_witness :
    (∀ l ∈ RadioBackgroundEmulatorProperties.limits, l.2 - l.1 ≠ 0) ∧
      (∀ r ∈ [[(0 : ℚ), 40, -1, -2, 3]],
        r.length = RadioBackgroundEmulatorProperties.limits.length) ∧
      (DefaultEmulatorInput.undo_normalization RadioBackgroundEmulatorProperties.limits
          (DefaultEmulatorInput.normalize RadioBackgroundEmulatorProperties.limits
            [[(0 : ℚ), 40, -1, -2, 3]]) = [[(0 : ℚ), 40, -1, -2, 3]] ∧
        RadioEmulatorInput.undo_normalization RadioBackgroundEmulatorProperties.limits
          (RadioEmulatorInput.normalize RadioBackgroundEmulatorProperties.limits
            [[(0 : ℚ), 40, -1, -2, 3]]) = [[(0 : ℚ), 40, -1, -2, 3]]) :=
  ⟨by norm_num [RadioBackgroundEmulatorProperties.limits],
    by simp [RadioBackgroundEmulatorProperties.limits],
    claim_C3 _ _ (by norm_num [RadioBackgroundEmulatorProperties.limits])
      (by simp [RadioBackgroundEmulatorProperties.limits])⟩

/-! ## `inputs.py`: `EmulatorInput.make_param_array`

The polymorphic input acceptance (lines 24-85 of `inputs.py`): a parameter
batch may be a mapping, a numpy array, a list, a tuple or a scalar, each
possibly containing any of the others.  `PyObj` mirrors that dynamic
value space; Python exceptions become `PyErr`. -/

/-- The Python exceptions that the input layer can raise. -/
inductive PyErr where
  | valueError (msg : String)
  | typeError (msg : String)
  | keyError (key : String)
  | indexError
deriving DecidableEq

/-- A dynamically typed Python value as `make_param_array` sees it.  Dict
values are numeric (the function only ever reads numbers out of them). -/
inductive PyObj where
  | scalar (x : ℚ)
  | dict (entries : List (String × ℚ))
  | arr (xs : List PyObj)
  | lst (xs : List PyObj)
  | tup (xs : List PyObj)

/-- `len(obj)`: `none` models the `TypeError` that `len` raises on an
object with no `__len__` (a scalar).  A Python dict has distinct keys, so
its length is its number of entries. -/
def pyLen : PyObj → Option ℕ
  | .scalar _ => none
  | .dict entries => some entries.length
  | .arr xs => some xs.length
  | .lst xs => some xs.length
  | .tup xs => some xs.length

def isTup : PyObj → Bool
  | .tup _ => true
  | _ => false

/-- The `TypeError` message used by both `_format_single_theta_vector` and
`make_param_array`. -/
def wrongFormatMsg : String :=
  "astro_params is in the wrong format. Should be a dict of astro params, list of astro params (in same order as astro_param_keys), or an array of astro params (in same order as astro_param_keys), OR a sequence of such."

/-- Message of the builtin `TypeError` that `len(theta)` raises on an
unsized object. -/
def noLenMsg : String := "object has no len()"

/-- Message of the `TypeError` raised when converting a non-numeric element
to float inside `np.array(..., dtype=float)` / `.astype(float)`. -/
def floatConvMsg : String := "float() argument must be a string or a number"

/-- The `ValueError` message of the length check (f-string of lines 26-29). -/
def lengthErrMsg (got req : ℕ) : String :=
  "One of the parameter vectors given is not the correct length. Got " ++
    toString got ++ " but require " ++ toString req ++ "."

/-- `DefaultEmulatorInput.astro_param_keys` (inputs.py lines 113-123). -/
def DefaultEmulatorInput.astro_param_keys : List String :=
  ["F_STAR10", "ALPHA_STAR", "F_ESC10", "ALPHA_ESC", "M_TURN", "t_STAR",
    "L_X", "NU_X_THRESH", "X_RAY_SPEC_INDEX"]

/-- A Python list comprehension `[f x for x in xs]`: left to right, the
first exception aborts the whole comprehension. -/
def mapME {α β : Type} (f : α → Except PyErr β) : List α → Except PyErr (List β)
  | [] => .ok []
  | a :: as =>
    match f a with
    | .error e => .error e
    | .ok b =>
      match mapME f as with
      | .error e => .error e
      | .ok bs => .ok (b :: bs)

/-- `theta[key]`: a missing key raises `KeyError(key)`. -/
def dictLookup (entries : List (String × ℚ)) (k : String) : Except PyErr ℚ :=
  match entries.find? (fun p => p.1 == k) with
  | some p => .ok p.2
  | none => .error (.keyError k)

/-- `float(o)`: only numeric objects convert.  (numpy would accept
rectangular nested numeric lists as higher-dimensional arrays; that corner
is outside every claim and is modelled as a conversion failure.) -/
def pyFloat : PyObj → Except PyErr ℚ
  | .scalar x => .ok x
  | _ => .error (.typeError floatConvMsg)

/-- `np.array(xs, dtype=float)` / `xs.astype(float)` on the elements of a
sequence. -/
def toFloats (xs : List PyObj) : Except PyErr (List ℚ) :=
  mapME pyFloat xs

/-- `EmulatorInput._format_single_theta_vector` (inputs.py lines 24-43):
the `len` call (which raises on scalars), then the length check, then the
type dispatch — dicts are read in `astro_param_keys` order, arrays and
lists are converted elementwise, anything else (tuples in particular) hits
the trailing `TypeError`. -/
def _format_single_theta_vector (keys : List String) (theta : PyObj) :
    Except PyErr (List ℚ) :=
  match pyLen theta with
  | none => .error (.typeError noLenMsg)
  | some n =>
    if n ≠ keys.length then .error (.valueError (lengthErrMsg n keys.length))
    else
      match theta with
      | .dict entries => mapME (dictLookup entries) keys
      | .arr xs => toFloats xs
      | .lst xs => toFloats xs
      | .tup _ => .error (.typeError wrongFormatMsg)
      | .scalar _ => .error (.typeError noLenMsg)

/-- All entries of the formatted batch lie in `[0, 1]`:
`theta.min() >= 0 and theta.max() <= 1`. -/
def rowsIn01 (rows : List (List ℚ)) : Bool :=
  rows.all fun r => r.all fun x => decide (0 ≤ x) && decide (x ≤ 1)

/-- The tail of `make_param_array` (inputs.py lines 79-85): auto-detect
whether the batch is normalized and reconcile with the requested flag. -/
def finishBatch (normalizeF undoF : List (List ℚ) → List (List ℚ))
    (rows : List (List ℚ)) (normed : Bool) : List (List ℚ) :=
  let params_normed := rowsIn01 rows
  if params_normed = normed then rows
  else if params_normed then undoF rows
  else normalizeF rows

/-- `astro_params[0]` dispatch of lines 71-73: an empty sequence raises
`IndexError`; a sequence whose first element has no `len` is wrapped and
treated as a single parameter vector; otherwise its elements are the
parameter vectors. -/
def seqElems (whole : PyObj) (xs : List PyObj) : Except PyErr (List PyObj) :=
  match xs with
  | [] => .error .indexError
  | x0 :: _ => .ok (if (pyLen x0).isNone then [whole] else xs)

/-- Lines 75-85 of `make_param_array`: build `theta` by formatting each
parameter set (first exception propagates), then reconcile with `normed`. -/
def formatAndFinish (keys : List String)
    (normalizeF undoF : List (List ℚ) → List (List ℚ))
    (elems : List PyObj) (normed : Bool) : Except PyErr (List (List ℚ)) :=
  match mapME (_format_single_theta_vector keys) elems with
  | .error e => .error e
  | .ok rows => .ok (finishBatch normalizeF undoF rows normed)

/-- The sequence case of `make_param_array`: run the `astro_params[0]`
dispatch, then format. -/
def seqCase (keys : List String)
    (normalizeF undoF : List (List ℚ) → List (List ℚ))
    (whole : PyObj) (xs : List PyObj) (normed : Bool) :
    Except PyErr (List (List ℚ)) :=
  match seqElems whole xs with
  | .error e => .error e
  | .ok elems => formatAndFinish keys normalizeF undoF elems normed

/-- `EmulatorInput.make_param_array` (inputs.py lines 45-85), parameterized
by the variant's key list and its `normalize` / `undo_normalization`:
scalars have no `__len__` (TypeError), a dict is wrapped as a singleton
batch, and any other sequence goes through the `astro_params[0]`
dispatch. -/
def make_param_array (keys : List String)
    (normalizeF undoF : List (List ℚ) → List (List ℚ))
    (astro_params : PyObj) (normed : Bool) : Except PyErr (List (List ℚ)) :=
  match astro_params with
  | .scalar _ => .error (.typeError wrongFormatMsg)
  | .dict entries => formatAndFinish keys normalizeF undoF [PyObj.dict entries] normed
  | .arr xs => seqCase keys normalizeF undoF (.arr xs) xs normed
  | .lst xs => seqCase keys normalizeF undoF (.lst xs) xs normed
  | .tup xs => seqCase keys normalizeF undoF (.tup xs) xs normed

/-- `make_param_array` of the default variant (keys and transforms of
`DefaultEmulatorInput`), with the archive's limits as a parameter. -/
def defaultMakeParamArray (limits : List (ℚ × ℚ)) (astro_params : PyObj)
    (normed : Bool) : Except PyErr (List (List ℚ)) :=
  make_param_array DefaultEmulatorInput.astro_param_keys
    (DefaultEmulatorInput.normalize limits)
    (DefaultEmulatorInput.undo_normalization limits) astro_params normed

/-- A 1-D numpy array of numbers. -/
def objRow (xs : List ℚ) : PyObj := .arr (xs.map .scalar)

/-- A 2-D numpy array: an array of 1-D rows. -/
def objBatch (rows : List (List ℚ)) : PyObj := .arr (rows.map objRow)

/-! ### Lemmas about the input machinery -/

theorem mapME_map {α β γ : Type} (f : β → Except PyErr γ) (h : α → β) (l : List α) :
    mapME f (l.map h) = mapME (fun a => f (h a)) l := by
  induction l with
  | nil => rfl
  | cons a as ih => simp only [List.map_cons, mapME, ih]

theorem mapME_ok_map {α β : Type} (f : α → Except PyErr β) (g : α → β) (l : List α)
    (h : ∀ a ∈ l, f a = .ok (g a)) : mapME f l = .ok (l.map g) := by
  induction l with
  | nil => rfl
  | cons a as ih =>
    simp only [mapME, h a (List.mem_cons_self a as),
      ih fun b hb => h b (List.mem_cons_of_mem a hb), List.map_cons]

theorem mapME_append_error {α β : Type} (f : α → Except PyErr β) (pre rest : List α)
    (bad : α) (e : PyErr) (hpre : ∀ p ∈ pre, ∃ v, f p = .ok v)
    (hbad : f bad = .error e) : mapME f (pre ++ bad :: rest) = .error e := by
  induction pre with
  | nil => simp [mapME, hbad]
  | cons p ps ih =>
    obtain ⟨v, hv⟩ := hpre p (List.mem_cons_self p ps)
    have ih' := ih fun q hq => hpre q (List.mem_cons_of_mem p hq)
    simp only [List.cons_append, mapME, hv]
    show (match mapME f (ps ++ bad :: rest) with
      | Except.error e => Except.error e
      | Except.ok bs => Except.ok (v :: bs)) = Except.error e
    rw [ih']

theorem toFloats_map_scalar (xs : List ℚ) : toFloats (xs.map .scalar) = .ok xs := by
  unfold toFloats
  rw [mapME_map]
  rw [mapME_ok_map (fun a : ℚ => pyFloat (PyObj.scalar a)) id xs (fun a ha => rfl)]
  rw [List.map_id]

theorem format_objRow (keys : List String) (xs : List ℚ)
    (hlen : xs.length = keys.length) :
    _format_single_theta_vector keys (objRow xs) = .ok xs := by
  simp [objRow, _format_single_theta_vector, pyLen, hlen, toFloats_map_scalar]

theorem getD_map_of_lt {α β : Type} (f : α → β) (d : β) (d' : α) :
    ∀ (l : List α) (k : ℕ), k < l.length → (l.map f).getD k d = f (l.getD k d')
  | [], k, hk => absurd hk (by simp)
  | a :: as, 0, _ => rfl
  | a :: as, k + 1, hk => getD_map_of_lt f d d' as k (by simpa using hk)

theorem seqElems_cons_sized (whole x0 : PyObj) (xs : List PyObj)
    (h : (pyLen x0).isNone = false) : seqElems whole (x0 :: xs) = .ok (x0 :: xs) := by
  simp [seqElems, h]

/-- `make_param_array` on a nonempty well-sized 2-D numpy batch reaches the
normalization-reconciliation step with exactly the batch's rows. -/
theorem makeParamArray_objBatch (keys : List String)
    (nF uF : List (List ℚ) → List (List ℚ)) (rows : List (List ℚ)) (normed : Bool)
    (hne : rows ≠ []) (hlen : ∀ s ∈ rows, s.length = keys.length) :
    make_param_array keys nF uF (objBatch rows) normed =
      .ok (finishBatch nF uF rows normed) := by
  obtain ⟨r0, rtl, rfl⟩ := List.exists_cons_of_ne_nil hne
  have hform : mapME (_format_single_theta_vector keys) ((r0 :: rtl).map objRow) =
      .ok (r0 :: rtl) := by
    rw [mapME_map]
    rw [mapME_ok_map (fun s => _format_single_theta_vector keys (objRow s)) id _
      (fun s hs => by simpa using format_objRow keys s (hlen s hs))]
    rw [List.map_id]
  show seqCase keys nF uF (.arr ((r0 :: rtl).map objRow)) ((r0 :: rtl).map objRow)
      normed = .ok (finishBatch nF uF (r0 :: rtl) normed)
  rw [List.map_cons, seqCase, seqElems_cons_sized _ _ _ (by simp [objRow, pyLen])]
  show formatAndFinish keys nF uF (objRow r0 :: rtl.map objRow) normed = _
  rw [formatAndFinish, show (objRow r0 :: rtl.map objRow) = (r0 :: rtl).map objRow
    from by simp, hform]

theorem default_normalize_getD (limits : List (ℚ × ℚ)) (m : List (List ℚ)) (k : ℕ)
    (hk : k < m.length) :
    (DefaultEmulatorInput.normalize limits m).getD k [] =
      divRangeRow limits (subLoRow limits
        (modifyIdx (fun x => x / 1000) 7 (m.getD k []))) := by
  unfold DefaultEmulatorInput.normalize
  rw [getD_map_of_lt _ [] [] _ k (by simp [hk]),
    getD_map_of_lt _ [] [] _ k (by simp [hk]),
    getD_map_of_lt _ [] [] _ k hk]

theorem default_undo_getD (limits : List (ℚ × ℚ)) (m : List (List ℚ)) (k : ℕ)
    (hk : k < m.length) :
    (DefaultEmulatorInput.undo_normalization limits m).getD k [] =
      modifyIdx (fun x => x * 1000) 7
        (addLoRow limits (mulRangeRow limits (m.getD k []))) := by
  unfold DefaultEmulatorInput.undo_normalization
  rw [getD_map_of_lt _ [] [] _ k (by simp [hk]),
    getD_map_of_lt _ [] [] _ k (by simp [hk]),
    getD_map_of_lt _ [] [] _ k hk]

theorem getD_mem_of_lt {α : Type} (d : α) :
    ∀ (l : List α) (k : ℕ), k < l.length → l.getD k d ∈ l
  | [], k, hk => absurd hk (by simp)
  | a :: as, 0, _ => List.mem_cons_self a as
  | a :: as, k + 1, hk =>
    List.mem_cons_of_mem a (getD_mem_of_lt d as k (by simpa using hk))

/-- C4, amended: a (5,9) batch and a (1,9) batch containing the same row
produce the same normalized coordinates for that row PROVIDED the
whole-batch auto-detection of normalization (`all values in [0,1]`) gives
the same answer for both batches; the detection is a property of the whole
batch, not of the row. -/
theorem claim_C4 (limits : List (ℚ × ℚ)) (rows : List (List ℚ)) (r : List ℚ)
    (k : ℕ) (normed : Bool)
    (hb : rows.length = 5) (hk : k < rows.length) (hr : rows.getD k [] = r)
    (hlen : ∀ s ∈ rows, s.length = 9)
    (hdet : rowsIn01 rows = rowsIn01 [r]) :
    ∃ m5 m1,
      defaultMakeParamArray limits (objBatch rows) normed = .ok m5 ∧
        defaultMakeParamArray limits (objBatch [r]) normed = .ok m1 ∧
        m5.getD k [] = m1.getD 0 [] := by
  have hne : rows ≠ [] := by
    intro h
    rw [h] at hb
    simp at hb
  have hrmem : r ∈ rows := hr ▸ getD_mem_of_lt [] rows k hk
  have hrlen : r.length = 9 := hlen r hrmem
  have hkeys : DefaultEmulatorInput.astro_param_keys.length = 9 := rfl
  have e5 := makeParamArray_objBatch DefaultEmulatorInput.astro_param_keys
    (DefaultEmulatorInput.normalize limits)
    (DefaultEmulatorInput.undo_normalization limits) rows normed hne
    (fun s hs => (hlen s hs).trans hkeys.symm)
  have e1 := makeParamArray_objBatch DefaultEmulatorInput.astro_param_keys
    (DefaultEmulatorInput.normalize limits)
    (DefaultEmulatorInput.undo_normalization limits) [r] normed (by simp)
    (fun s hs => by
      rw [List.mem_singleton] at hs
      rw [hs, hrlen, hkeys])
  refine ⟨_, _, e5, e1, ?_⟩
  simp only [finishBatch, ← hdet]
  by_cases hbn : rowsIn01 rows = normed
  · rw [if_pos hbn, if_pos hbn, hr]
    rfl
  · simp only [hbn, if_false]
    cases hbv : rowsIn01 rows with
    | true =>
      simp only [if_true]
      rw [default_undo_getD _ _ _ hk, default_undo_getD _ _ 0 (by simp), hr]
      rfl
    | false =>
      simp only [Bool.false_eq_true, if_false]
      rw [default_normalize_getD _ _ _ hk, default_normalize_getD _ _ 0 (by simp), hr]
      rfl

/-- Nine copies of the range `(0, 2)`: a concrete nondegenerate stand-in
for the default model's limits, used by concrete instances below. -/
def demoLimits : List (ℚ × ℚ) :=
  [(0, 2), (0, 2), (0, 2), (0, 2), (0, 2), (0, 2), (0, 2), (0, 2), (0, 2)]

/-- A row inside the unit cube. -/
def c4rowIn : List ℚ := [1, 1, 1, 1, 1, 1, 1, 1, 1]

/-- A row outside the unit cube. -/
def c4rowOut : List ℚ := [5, 5, 5, 5, 5, 5, 5, 5, 5]

/-- A (5,9) batch mixing the two. -/
def c4batch : List (List ℚ) := [c4rowIn, c4rowOut, c4rowOut, c4rowOut, c4rowOut]

/-- C4, counterexample to the claim as stated: the row `c4rowIn` lies in
the unit cube, so the (1,9) call returns it unchanged with `normed=True`,
but batched with out-of-range rows the whole-batch detection fails and the
(5,9) call normalizes it (coordinate 0 becomes 1/2 instead of 1). -/
theorem claim_C4_counterexample :
    Except.map (fun m => List.getD m 0 ([] : List ℚ))
        (defaultMakeParamArray demoLimits (objBatch c4batch) true) ≠
      Except.map (fun m => List.getD m 0 ([] : List ℚ))
        (defaultMakeParamArray demoLimits (objBatch [c4rowIn]) true) := by
  have hdet5 : rowsIn01 c4batch = false := by
    norm_num [rowsIn01, c4batch, c4rowIn, c4rowOut]
  have hdet1 : rowsIn01 [c4rowIn] = true := by
    norm_num [rowsIn01, c4rowIn]
  have e5 := makeParamArray_objBatch DefaultEmulatorInput.astro_param_keys
    (DefaultEmulatorInput.normalize demoLimits)
    (DefaultEmulatorInput.undo_normalization demoLimits) c4batch true
    (by simp [c4batch])
    (by simp [c4batch, c4rowIn, c4rowOut, DefaultEmulatorInput.astro_param_keys])
  have e1 := makeParamArray_objBatch DefaultEmulatorInput.astro_param_keys
    (DefaultEmulatorInput.normalize demoLimits)
    (DefaultEmulatorInput.undo_normalization demoLimits) [c4rowIn] true
    (by simp) (by simp [c4rowIn, DefaultEmulatorInput.astro_param_keys])
  show Except.map _ (defaultMakeParamArray demoLimits (objBatch c4batch) true) ≠
    Except.map _ (defaultMakeParamArray demoLimits (objBatch [c4rowIn]) true)
  rw [defaultMakeParamArray, defaultMakeParamArray, e5, e1]
  simp only [finishBatch, hdet5, hdet1, if_true, Bool.false_eq_true, if_false,
    Except.map]
  intro h
  rw [Except.ok.injEq] at h
  rw [default_normalize_getD _ _ 0 (by simp [c4batch])] at h
  simp only [c4batch, c4rowIn, List.getD] at h
  norm_num [divRangeRow, subLoRow, modifyIdx, demoLimits, c4rowIn] at h

/-- A (5,9) batch of five copies of the same in-range row. -/
def c4batchSame : List (List ℚ) := [c4rowIn, c4rowIn, c4rowIn, c4rowIn, c4rowIn]

/-- Concrete instance of the amended C4 at a batch of five copies of the
same in-range row. -/
theorem claim_C4_witness :
    ((c4batchSame.length = 5 ∧ 0 < c4batchSame.length ∧
        c4batchSame.getD 0 [] = c4rowIn ∧ (∀ s ∈ c4batchSame, s.length = 9) ∧
        rowsIn01 c4batchSame = rowsIn01 [c4rowIn]) ∧
      ∃ m5 m1,
        defaultMakeParamArray demoLimits (objBatch c4batchSame) true = .ok m5 ∧
          defaultMakeParamArray demoLimits (objBatch [c4rowIn]) true = .ok m1 ∧
          m5.getD 0 [] = m1.getD 0 []) :=
  ⟨⟨rfl, by norm_num [c4batchSame], rfl,
      by simp [c4batchSame, c4rowIn],
      by norm_num [rowsIn01, c4batchSame, c4rowIn]⟩,
    claim_C4 demoLimits c4batchSame c4rowIn 0 true rfl
      (by norm_num [c4batchSame]) rfl
      (by simp [c4batchSame, c4rowIn])
      (by norm_num [rowsIn01, c4batchSame, c4rowIn])⟩

/-- Which sequence container carries the batch (the top-level dispatch of
`make_param_array` treats all three identically). -/
inductive SeqKind where
  | arrK
  | lstK
  | tupK

def mkSeq : SeqKind → List PyObj → PyObj
  | .arrK, xs => .arr xs
  | .lstK, xs => .lst xs
  | .tupK, xs => .tup xs

theorem make_param_array_mkSeq (keys : List String)
    (nF uF : List (List ℚ) → List (List ℚ)) (kind : SeqKind) (xs : List PyObj)
    (normed : Bool) :
    make_param_array keys nF uF (mkSeq kind xs) normed =
      seqCase keys nF uF (mkSeq kind xs) xs normed := by
  cases kind <;> rfl

/-- If every parameter set before `bad` formats fine and `bad` raises, the
sequence case raises `bad`'s exception. -/
theorem seqCase_error (keys : List String)
    (nF uF : List (List ℚ) → List (List ℚ)) (whole : PyObj)
    (pre rest : List PyObj) (bad : PyObj) (normed : Bool) (e : PyErr)
    (hhead : (pyLen ((pre ++ bad :: rest).headD (.scalar 0))).isNone = false)
    (hpre : ∀ p ∈ pre, ∃ v, _format_single_theta_vector keys p = .ok v)
    (hbad : _format_single_theta_vector keys bad = .error e) :
    seqCase keys nF uF whole (pre ++ bad :: rest) normed = .error e := by
  have hm := mapME_append_error (_format_single_theta_vector keys) pre rest bad e
    hpre hbad
  cases pre with
  | nil =>
    simp only [List.nil_append] at hm hhead ⊢
    rw [seqCase, seqElems_cons_sized _ _ _ (by simpa using hhead)]
    simp only [formatAndFinish, hm]
  | cons p ps =>
    simp only [List.cons_append] at hm hhead ⊢
    rw [seqCase, seqElems_cons_sized _ _ _ (by simpa using hhead)]
    simp only [formatAndFinish, hm]

/-- C6, amended: inside `make_param_array` the elements are formatted left
to right and, for each element, the `len` call and the length check precede
the type dispatch.  Hence the first offending element decides the
exception: a wrong-length element with a `len` (tuples included!) raises
the length-mismatch `ValueError`; an element of the expected length that is
none of dict/array/list raises the `TypeError`; an element with no `len`
(a scalar) raises the builtin `TypeError` of `len`. -/
theorem claim_C6 (keys : List String)
    (nF uF : List (List ℚ) → List (List ℚ)) (kind : SeqKind)
    (pre rest : List PyObj) (bad : PyObj) (normed : Bool)
    (hhead : (pyLen ((pre ++ bad :: rest).headD (.scalar 0))).isNone = false)
    (hpre : ∀ p ∈ pre, ∃ v, _format_single_theta_vector keys p = .ok v) :
    (∀ n, pyLen bad = some n → n ≠ keys.length →
      make_param_array keys nF uF (mkSeq kind (pre ++ bad :: rest)) normed =
        .error (.valueError (lengthErrMsg n keys.length))) ∧
      (pyLen bad = some keys.length → isTup bad = true →
        make_param_array keys nF uF (mkSeq kind (pre ++ bad :: rest)) normed =
          .error (.typeError wrongFormatMsg)) ∧
      (pyLen bad = none →
        make_param_array keys nF uF (mkSeq kind (pre ++ bad :: rest)) normed =
          .error (.typeError noLenMsg)) := by
  refine ⟨?_, ?_, ?_⟩
  · intro n hn hneq
    rw [make_param_array_mkSeq]
    exact seqCase_error _ _ _ _ _ _ _ _ _ hhead hpre
      (by simp [_format_single_theta_vector, hn, hneq])
  · intro hn htup
    rw [make_param_array_mkSeq]
    refine seqCase_error _ _ _ _ _ _ _ _ _ hhead hpre ?_
    cases bad with
    | tup xs =>
      simp only [pyLen, Option.some.injEq] at hn
      simp [_format_single_theta_vector, pyLen, hn]
    | scalar x => simp [isTup] at htup
    | dict entries => simp [isTup] at htup
    | arr xs => simp [isTup] at htup
    | lst xs => simp [isTup] at htup
  · intro hn
    rw [make_param_array_mkSeq]
    exact seqCase_error _ _ _ _ _ _ _ _ _ hhead hpre
      (by simp [_format_single_theta_vector, hn])

/-- C6, counterexample to the claim as stated: the element `(1,)` — a
tuple, hence none of dict/array/list — raises the length-mismatch
`ValueError`, not the `TypeError` the claim promises for non-{dict, array,
list} elements, because the length check runs first. -/
theorem claim_C6_counterexample :
    defaultMakeParamArray demoLimits (.lst [.tup [.scalar 1]]) true =
      .error (.valueError (lengthErrMsg 1 9)) := rfl

/-- Concrete instance of the amended C6: the same input, seen through the
amended statement. -/
theorem claim_C6_witness :
    ((pyLen (([] ++ PyObj.tup [PyObj.scalar 1] :: []).headD (.scalar 0))).isNone
        = false ∧
      (∀ p ∈ ([] : List PyObj), ∃ v,
        _format_single_theta_vector DefaultEmulatorInput.astro_param_keys p =
          .ok v)) ∧
      ((∀ n, pyLen (PyObj.tup [PyObj.scalar 1]) = some n →
        n ≠ DefaultEmulatorInput.astro_param_keys.length →
        make_param_array DefaultEmulatorInput.astro_param_keys
            (DefaultEmulatorInput.normalize demoLimits)
            (DefaultEmulatorInput.undo_normalization demoLimits)
            (mkSeq .lstK ([] ++ PyObj.tup [PyObj.scalar 1] :: [])) true =
          .error (.valueError
            (lengthErrMsg n DefaultEmulatorInput.astro_param_keys.length))) ∧
        (pyLen (PyObj.tup [PyObj.scalar 1]) =
            some DefaultEmulatorInput.astro_param_keys.length →
          isTup (PyObj.tup [PyObj.scalar 1]) = true →
          make_param_array DefaultEmulatorInput.astro_param_keys
              (DefaultEmulatorInput.normalize demoLimits)
              (DefaultEmulatorInput.undo_normalization demoLimits)
              (mkSeq .lstK ([] ++ PyObj.tup [PyObj.scalar 1] :: [])) true =
            .error (.typeError wrongFormatMsg)) ∧
        (pyLen (PyObj.tup [PyObj.scalar 1]) = none →
          make_param_array DefaultEmulatorInput.astro_param_keys
              (DefaultEmulatorInput.normalize demoLimits)
              (DefaultEmulatorInput.undo_normalization demoLimits)
              (mkSeq .lstK ([] ++ PyObj.tup [PyObj.scalar 1] :: [])) true =
            .error (.typeError noLenMsg))) :=
  ⟨⟨rfl, by simp⟩,
    claim_C6 DefaultEmulatorInput.astro_param_keys
      (DefaultEmulatorInput.normalize demoLimits)
      (DefaultEmulatorInput.undo_normalization demoLimits) .lstK [] []
      (PyObj.tup [PyObj.scalar 1]) true rfl (by simp)⟩

/-- `theta[key]` lookups run in `astro_param_keys` order; the first missing
key raises `KeyError`. -/
theorem mapME_dictLookup_missing (entries : List (String × ℚ)) :
    ∀ (keys : List String),
      (∃ k ∈ keys, entries.find? (fun p => p.1 == k) = none) →
      ∃ k ∈ keys, entries.find? (fun p => p.1 == k) = none ∧
        mapME (dictLookup entries) keys = .error (.keyError k) := by
  intro keys
  induction keys with
  | nil =>
    rintro ⟨k, hk, _⟩
    exact absurd hk (List.not_mem_nil k)
  | cons k0 ks ih =>
    rintro ⟨k, hk, hnone⟩
    cases hfind : entries.find? (fun p => p.1 == k0) with
    | none =>
      exact ⟨k0, List.mem_cons_self _ _, hfind,
        by simp [mapME, dictLookup, hfind]⟩
    | some p =>
      have hks : ∃ q ∈ ks, entries.find? (fun x => x.1 == q) = none := by
        rcases List.mem_cons.mp hk with h | hmem
        · rw [← h] at hfind
          rw [hfind] at hnone
          exact absurd hnone (by simp)
        · exact ⟨k, hmem, hnone⟩
      obtain ⟨q, hq, hnone', herr⟩ := ih hks
      exact ⟨q, List.mem_cons_of_mem _ hq, hnone',
        by simp [mapME, dictLookup, hfind, herr]⟩

/-- C10: a dict with the expected number of entries but a wrong key raises
`KeyError` from the `theta[key]` lookup, not the documented `ValueError` or
`TypeError`. -/
theorem claim_C10 (limits : List (ℚ × ℚ)) (entries : List (String × ℚ))
    (normed : Bool) (hnodup : (entries.map Prod.fst).Nodup)
    (hlen : entries.length = 9)
    (hmiss : ∃ k ∈ DefaultEmulatorInput.astro_param_keys,
      entries.find? (fun p => p.1 == k) = none) :
    ∃ k ∈ DefaultEmulatorInput.astro_param_keys,
      entries.find? (fun p => p.1 == k) = none ∧
        defaultMakeParamArray limits (.dict entries) normed =
          .error (.keyError k) := by
  obtain ⟨k, hk, hnone, herr⟩ := mapME_dictLookup_missing entries _ hmiss
  refine ⟨k, hk, hnone, ?_⟩
  have hkeys : DefaultEmulatorInput.astro_param_keys.length = 9 := rfl
  have hfmt : _format_single_theta_vector DefaultEmulatorInput.astro_param_keys
      (.dict entries) = .error (.keyError k) := by
    simp [_format_single_theta_vector, pyLen, hlen, hkeys, herr]
  show make_param_array DefaultEmulatorInput.astro_param_keys
      (DefaultEmulatorInput.normalize limits)
      (DefaultEmulatorInput.undo_normalization limits) (.dict entries) normed = _
  simp only [make_param_array, formatAndFinish, mapME, hfmt]

/-- A nine-entry dict whose keys are not the astro parameter names. -/
def wrongKeyDict : List (String × ℚ) :=
  [("a1", 0), ("a2", 0), ("a3", 0), ("a4", 0), ("a5", 0), ("a6", 0), ("a7", 0),
    ("a8", 0), ("a9", 0)]

/-- Concrete instance of C10 at `wrongKeyDict`. -/
theorem claim_C10_witness :
    ((wrongKeyDict.map Prod.fst).Nodup ∧ wrongKeyDict.length = 9 ∧
      (∃ k ∈ DefaultEmulatorInput.astro_param_keys,
        wrongKeyDict.find? (fun p => p.1 == k) = none)) ∧
      ∃ k ∈ DefaultEmulatorInput.astro_param_keys,
        wrongKeyDict.find? (fun p => p.1 == k) = none ∧
          defaultMakeParamArray demoLimits (.dict wrongKeyDict) true =
            .error (.keyError k) :=
  ⟨⟨by decide, rfl, ⟨"F_STAR10", by simp [DefaultEmulatorInput.astro_param_keys],
      by decide⟩⟩,
    claim_C10 demoLimits wrongKeyDict true (by decide) rfl
      ⟨"F_STAR10", by simp [DefaultEmulatorInput.astro_param_keys], by decide⟩⟩

/-! ## `outputs.py`: the output reconstructor

`DefaultRawEmulatorOutput` (outputs.py lines 170-278) slices each sample's
flat raw vector at offsets that are multiples of `nz = len(zs)`,
de-normalizes the quantities with a mean/std constant pair, then applies
the transition-redshift mask and undoes the log10 storage of PS/Ts/tau. -/

/-- `np.argmin(l)`: the first index of a minimal entry (numpy keeps the
first occurrence on ties, as does `List.argmin`). -/
def np_argmin (l : List ℚ) : ℕ :=
  ((List.range l.length).argmin fun j => l.getD j 0).getD 0

theorem np_argmin_spec (l : List ℚ) (h : l ≠ []) :
    np_argmin l < l.length ∧
      ∀ j < l.length, l.getD (np_argmin l) 0 ≤ l.getD j 0 := by
  cases harg : (List.range l.length).argmin fun j => l.getD j 0 with
  | none =>
    rw [List.argmin_eq_none, List.range_eq_nil] at harg
    exact absurd (List.length_eq_zero.mp harg) h
  | some m =>
    have hmem : m ∈ List.range l.length := List.argmin_mem harg
    have hm : np_argmin l = m := by rw [np_argmin, harg]; rfl
    refine ⟨hm ▸ List.mem_range.mp hmem, fun j hj => ?_⟩
    rw [hm]
    exact List.le_of_mem_argmin (List.mem_range.mpr hj) harg

/-- `zbin = np.argmin(abs(zs - t))` (outputs.py lines 266-268). -/
def zbinOf (zs : List ℚ) (t : ℚ) : ℕ :=
  np_argmin (zs.map fun z => |z - t|)

theorem zbinOf_lt (zs : List ℚ) (t : ℚ) (h : zs ≠ []) : zbinOf zs t < zs.length := by
  have := (np_argmin_spec (zs.map fun z => |z - t|) (by simpa using h)).1
  simpa [zbinOf] using this

theorem zbinOf_min (zs : List ℚ) (t : ℚ) (h : zs ≠ []) :
    ∀ j < zs.length, |zs.getD (zbinOf zs t) 0 - t| ≤ |zs.getD j 0 - t| := by
  intro j hj
  have hspec := np_argmin_spec (zs.map fun z => |z - t|) (by simpa using h)
  have hlt : np_argmin (zs.map fun z => |z - t|) < zs.length := by
    simpa using hspec.1
  have h1 := hspec.2 j (by simpa using hj)
  rw [getD_map_of_lt (fun z => |z - t|) 0 0 zs j hj,
    getD_map_of_lt (fun z => |z - t|) 0 0 zs _ hlt] at h1
  exact h1

/-- `xs[:n] = 0.0` (outputs.py line 270). -/
def zeroFillBefore : ℕ → List ℚ → List ℚ
  | _, [] => []
  | 0, xs => xs
  | n + 1, x :: xs => 0 :: zeroFillBefore n xs

@[simp]
theorem zeroFillBefore_nil (n : ℕ) : zeroFillBefore n [] = [] := by
  cases n <;> rfl

@[simp]
theorem zeroFillBefore_zero (xs : List ℚ) : zeroFillBefore 0 xs = xs := by
  cases xs <;> rfl

@[simp]
theorem length_zeroFillBefore (n : ℕ) (xs : List ℚ) :
    (zeroFillBefore n xs).length = xs.length := by
  induction xs generalizing n with
  | nil => simp
  | cons x xs ih =>
    cases n with
    | zero => simp
    | succ n => simpa [zeroFillBefore] using ih n

theorem zeroFillBefore_getD_lt (n : ℕ) (xs : List ℚ) (j : ℕ) (hj : j < n)
    (hx : j < xs.length) : (zeroFillBefore n xs).getD j 0 = 0 := by
  induction xs generalizing n j with
  | nil => simp at hx
  | cons x xs ih =>
    cases n with
    | zero => omega
    | succ n =>
      cases j with
      | zero => rfl
      | succ j =>
        simpa [zeroFillBefore] using ih n j (by omega) (by simpa using hx)

theorem zeroFillBefore_getD_ge (n : ℕ) (xs : List ℚ) (j : ℕ) (hj : n ≤ j)
    (d : ℚ) : (zeroFillBefore n xs).getD j d = xs.getD j d := by
  induction xs generalizing n j with
  | nil => simp
  | cons x xs ih =>
    cases n with
    | zero => simp
    | succ n =>
      cases j with
      | zero => omega
      | succ j => simpa [zeroFillBefore] using ih n j (by omega)

/-- `Ts[:n] = np.nan` (outputs.py line 271), with `none` for NaN. -/
def nanMask : ℕ → List ℚ → List (Option ℚ)
  | _, [] => []
  | 0, xs => xs.map some
  | n + 1, x :: xs => none :: nanMask n xs

@[simp]
theorem length_nanMask (n : ℕ) (xs : List ℚ) :
    (nanMask n xs).length = xs.length := by
  induction xs generalizing n with
  | nil => cases n <;> rfl
  | cons x xs ih =>
    cases n with
    | zero => simp [nanMask]
    | succ n => simpa [nanMask] using ih n

theorem nanMask_getD_lt (n : ℕ) (xs : List ℚ) (j : ℕ) (hj : j < n)
    (hx : j < xs.length) (d : Option ℚ) : (nanMask n xs).getD j d = none := by
  induction xs generalizing n j with
  | nil => simp at hx
  | cons x xs ih =>
    cases n with
    | zero => omega
    | succ n =>
      cases j with
      | zero => rfl
      | succ j =>
        simpa [nanMask] using ih n j (by omega) (by simpa using hx)

/-- The constants that `DefaultEmulatorProperties` loads from the bundled
`emulator_constants.npz` and that `get_renormalized` consumes.  The archive
is a binary artifact outside the source tree, so the values are parameters;
the mean/std constants are modelled as scalars (their broadcast shape is
irrelevant to every claim, which only concern the shape-preserving formula
`mean + std * raw`). -/
structure DefaultEmulatorProperties where
  zs : List ℚ
  Tb_mean : ℚ
  Tb_std : ℚ
  Ts_mean : ℚ
  Ts_std : ℚ
  PS_mean : ℚ
  PS_std : ℚ
  tau_mean : ℚ
  tau_std : ℚ
  UVLFs_mean : ℚ
  UVLFs_std : ℚ

/-- The reconstructed output of one sample (fields of
`DefaultEmulatorOutput`, outputs.py lines 94-104; `Ts` may contain NaN).
The UVLF M_UV crop and the `(60, 12)` reshape of `PS` only reindex or drop
entries and are omitted; `squeeze` only removes singleton axes and is
omitted. -/
structure DefaultEmulatorOutput where
  Tb : List ℚ
  xHI : List ℚ
  Ts : List (Option ℚ)
  PS : List ℚ
  tau : ℚ
  UVLFs : List ℚ

instance : Inhabited DefaultEmulatorOutput := ⟨⟨[], [], [], [], 0, []⟩⟩

/-- `self.output[:, :nz]` for one sample. -/
def sliceTb (nz : ℕ) (row : List ℚ) : List ℚ := row.take nz

/-- `self.output[:, nz:2*nz]` for one sample (the xHI segment — this is
the numpy view the zero-fill writes through). -/
def slicexHI (nz : ℕ) (row : List ℚ) : List ℚ := (row.drop nz).take nz

/-- `self.output[:, 2*nz:3*nz]` for one sample. -/
def sliceTs (nz : ℕ) (row : List ℚ) : List ℚ := (row.drop (2 * nz)).take nz

/-- `self.output[:, 3*nz]`: the predicted transition redshift. -/
def reshift_where_Ts_becomes_defined (nz : ℕ) (row : List ℚ) : ℚ :=
  row.getD (3 * nz) 0

/-- `self.output[:, 3*nz+1 : 3*nz+1+60*12]` (the reshape is omitted). -/
def slicePS (nz : ℕ) (row : List ℚ) : List ℚ :=
  (row.drop (3 * nz + 1)).take (60 * 12)

/-- `self.output[:, 3*nz+1+60*12]`. -/
def sliceTau (nz : ℕ) (row : List ℚ) : ℚ := row.getD (3 * nz + 1 + 60 * 12) 0

/-- `self.output[:, 3*nz+1+60*12+1:]` (the M_UV crop is omitted). -/
def sliceUVLFs (nz : ℕ) (row : List ℚ) : List ℚ :=
  row.drop (3 * nz + 1 + 60 * 12 + 1)

/-- `mean + std * raw` elementwise (`renormalize`, outputs.py lines
238-240). -/
def renormalizeSeg (mean std : ℚ) (xs : List ℚ) : List ℚ :=
  xs.map fun x => mean + std * x

/-- One sample of `DefaultRawEmulatorOutput.get_renormalized` (outputs.py
lines 242-278), together with the final state of that sample's row of the
raw `output` buffer.  The `renorm` dict holds fresh arrays for the
normalized quantities (PS, Tb, Ts, tau, UVLFs); `xHI` is not normalized, so
`out["xHI"]` is the `self.xHI` numpy view of `output[:, nz:2*nz]` and the
conditional zero-fill writes through it into the buffer (second component);
the Ts NaN-fill hits the fresh de-normalized array only.  `10 ** x` is the
abstract `pow10` and maps NaN to NaN. -/
def processSample (P : DefaultEmulatorProperties) (pow10 : ℚ → ℚ)
    (row : List ℚ) : DefaultEmulatorOutput × List ℚ :=
  let nz := P.zs.length
  let xHIr := slicexHI nz row
  let TbR := renormalizeSeg P.Tb_mean P.Tb_std (sliceTb nz row)
  let TsR := renormalizeSeg P.Ts_mean P.Ts_std (sliceTs nz row)
  let PSR := renormalizeSeg P.PS_mean P.PS_std (slicePS nz row)
  let tauR := P.tau_mean + P.tau_std * sliceTau nz row
  let UVR := renormalizeSeg P.UVLFs_mean P.UVLFs_std (sliceUVLFs nz row)
  let zbin := zbinOf P.zs (reshift_where_Ts_becomes_defined nz row)
  let cond := xHIr.getD zbin 0 < 1 / 10
  let xHI2 := if cond then zeroFillBefore zbin xHIr else xHIr
  let row2 := if cond then row.take nz ++ zeroFillBefore zbin xHIr ++ row.drop (2 * nz)
    else row
  let TsN := nanMask zbin TsR
  (⟨TbR, xHI2, TsN.map (Option.map pow10), PSR.map pow10, pow10 tauR, UVR⟩, row2)

/-- `DefaultRawEmulatorOutput.get_renormalized`: the returned labeled
output, one record per sample. -/
def get_renormalized (P : DefaultEmulatorProperties) (pow10 : ℚ → ℚ)
    (output : List (List ℚ)) : List DefaultEmulatorOutput :=
  output.map fun r => (processSample P pow10 r).1

/-- The state of the raw `output` array after `get_renormalized` returns
(the receiver is mutated through the `xHI` view). -/
def get_renormalized_buffer (P : DefaultEmulatorProperties) (pow10 : ℚ → ℚ)
    (output : List (List ℚ)) : List (List ℚ) :=
  output.map fun r => (processSample P pow10 r).2

theorem length_slicexHI (nz : ℕ) (row : List ℚ) (h : 2 * nz ≤ row.length) :
    (slicexHI nz row).length = nz := by
  simp only [slicexHI, List.length_take, List.length_drop]
  omega

theorem drop_length_append {α : Type} (A B : List α) (n : ℕ) (h : A.length = n) :
    (A ++ B).drop n = B := by
  subst h
  exact List.drop_left A B

theorem take_length_append {α : Type} (A B : List α) (n : ℕ) (h : A.length = n) :
    (A ++ B).take n = A := by
  subst h
  exact List.take_left A B

/-- Reading the xHI view back out of the buffer after the view-write
returns exactly the written segment. -/
theorem view_write_slicexHI (nz zbin : ℕ) (row : List ℚ) (hl : 2 * nz ≤ row.length) :
    slicexHI nz (row.take nz ++ zeroFillBefore zbin (slicexHI nz row) ++
      row.drop (2 * nz)) = zeroFillBefore zbin (slicexHI nz row) := by
  have htake : (row.take nz).length = nz := by
    simp only [List.length_take]
    omega
  have hzf : (zeroFillBefore zbin (slicexHI nz row)).length = nz := by
    rw [length_zeroFillBefore, length_slicexHI _ _ hl]
  show ((row.take nz ++ zeroFillBefore zbin (slicexHI nz row) ++
      row.drop (2 * nz)).drop nz).take nz = zeroFillBefore zbin (slicexHI nz row)
  rw [List.append_assoc, drop_length_append _ _ _ htake,
    take_length_append _ _ _ hzf]

theorem length_sliceTs (nz : ℕ) (row : List ℚ) (h : 3 * nz ≤ row.length) :
    (sliceTs nz row).length = nz := by
  simp only [sliceTs, List.length_take, List.length_drop]
  omega

/-- C1: per sample, `get_renormalized` picks the transition bin as the
(first) redshift-grid index nearest to the sample's predicted transition
redshift, zero-fills xHI strictly before that bin exactly when the xHI
value at the bin is below 1/10 (else leaves xHI as predicted), and puts
NaN into Ts at every index strictly before the bin. -/
theorem claim_C1 (P : DefaultEmulatorProperties) (pow10 : ℚ → ℚ)
    (output : List (List ℚ)) (i : ℕ) (row : List ℚ) (t : ℚ) (zbin : ℕ)
    (res : DefaultEmulatorOutput)
    (hi : i < output.length) (hzs : P.zs ≠ [])
    (hrow : output.getD i [] = row) (hlen : 3 * P.zs.length ≤ row.length)
    (ht : t = reshift_where_Ts_becomes_defined P.zs.length row)
    (hzbin : zbin = zbinOf P.zs t)
    (hres : res = (get_renormalized P pow10 output).getD i default) :
    (zbin < P.zs.length ∧
        ∀ j < P.zs.length, |P.zs.getD zbin 0 - t| ≤ |P.zs.getD j 0 - t|) ∧
      ((slicexHI P.zs.length row).getD zbin 0 < 1 / 10 →
        res.xHI = zeroFillBefore zbin (slicexHI P.zs.length row)) ∧
      (¬ (slicexHI P.zs.length row).getD zbin 0 < 1 / 10 →
        res.xHI = slicexHI P.zs.length row) ∧
      (∀ j < zbin, res.Ts.getD j (some 0) = none) := by
  subst hrow ht hzbin hres
  have hget : (get_renormalized P pow10 output).getD i default =
      (processSample P pow10 (output.getD i [])).1 :=
    getD_map_of_lt _ default [] output i hi
  refine ⟨⟨zbinOf_lt _ _ hzs, zbinOf_min _ _ hzs⟩, ?_, ?_, ?_⟩
  · intro hcond
    rw [hget]
    simp only [processSample]
    rw [if_pos hcond]
  · intro hcond
    rw [hget]
    simp only [processSample]
    rw [if_neg hcond]
  · intro j hj
    have hzb := zbinOf_lt P.zs
      (reshift_where_Ts_becomes_defined P.zs.length (output.getD i [])) hzs
    have hTsLen : (renormalizeSeg P.Ts_mean P.Ts_std
        (sliceTs P.zs.length (output.getD i []))).length = P.zs.length := by
      simp only [renormalizeSeg, List.length_map]
      exact length_sliceTs _ _ hlen
    rw [hget]
    simp only [processSample]
    rw [getD_map_of_lt (Option.map pow10) (some 0) (some 0) _ j
      (by rw [length_nanMask, hTsLen]; omega)]
    rw [nanMask_getD_lt _ _ j hj (by rw [hTsLen]; omega)]
    rfl

/-- A concrete three-redshift grid with zero means and unit stds. -/
def c1props : DefaultEmulatorProperties := ⟨[10, 12, 14], 0, 1, 0, 1, 0, 1, 0, 1, 0, 1⟩

/-- One raw sample of length `3 * nz + 1 = 10` with transition value 12. -/
def c1row : List ℚ := [0, 0, 0, 5, 0, 7, 1, 2, 3, 12]

/-- Concrete instance of C1 at a handcrafted one-sample batch. -/
theorem claim_C1_witness :
    (0 < ([c1row] : List (List ℚ)).length ∧ c1props.zs ≠ [] ∧
        [c1row].getD 0 [] = c1row ∧ 3 * c1props.zs.length ≤ c1row.length) ∧
      ((zbinOf c1props.zs (reshift_where_Ts_becomes_defined c1props.zs.length c1row) <
            c1props.zs.length ∧
          ∀ j < c1props.zs.length,
            |c1props.zs.getD (zbinOf c1props.zs
                (reshift_where_Ts_becomes_defined c1props.zs.length c1row)) 0 -
                reshift_where_Ts_becomes_defined c1props.zs.length c1row| ≤
              |c1props.zs.getD j 0 -
                reshift_where_Ts_becomes_defined c1props.zs.length c1row|) ∧
        ((slicexHI c1props.zs.length c1row).getD
              (zbinOf c1props.zs
                (reshift_where_Ts_becomes_defined c1props.zs.length c1row)) 0 < 1 / 10 →
          ((get_renormalized c1props id [c1row]).getD 0 default).xHI =
            zeroFillBefore
              (zbinOf c1props.zs
                (reshift_where_Ts_becomes_defined c1props.zs.length c1row))
              (slicexHI c1props.zs.length c1row)) ∧
        (¬ (slicexHI c1props.zs.length c1row).getD
              (zbinOf c1props.zs
                (reshift_where_Ts_becomes_defined c1props.zs.length c1row)) 0 < 1 / 10 →
          ((get_renormalized c1props id [c1row]).getD 0 default).xHI =
            slicexHI c1props.zs.length c1row) ∧
        (∀ j < zbinOf c1props.zs
            (reshift_where_Ts_becomes_defined c1props.zs.length c1row),
          ((get_renormalized c1props id [c1row]).getD 0 default).Ts.getD j (some 0) =
            none)) :=
  ⟨⟨by norm_num, by simp [c1props], rfl, by norm_num [c1props, c1row]⟩,
    claim_C1 c1props id [c1row] 0 c1row _ _ _ (by norm_num) (by simp [c1props])
      rfl (by norm_num [c1props, c1row]) rfl rfl rfl⟩

/-- C9: `get_renormalized` mutates its receiver's raw `output` through the
`xHI` numpy view.  When the zero-fill condition triggers for sample `i`,
the zeros land in the raw buffer's columns `nz ≤ p < nz + zbin` (the xHI
segment); columns before `nz` (Tb) and from `2*nz` on (Ts and later
segments, which were de-normalized into fresh arrays) keep their raw
values; and the returned `xHI` is exactly the view of the mutated
buffer. -/
theorem claim_C9 (P : DefaultEmulatorProperties) (pow10 : ℚ → ℚ)
    (output : List (List ℚ)) (i : ℕ) (row : List ℚ) (zbin : ℕ)
    (hi : i < output.length) (hzs : P.zs ≠ [])
    (hrow : output.getD i [] = row) (hlen : 2 * P.zs.length ≤ row.length)
    (hzbin : zbin = zbinOf P.zs
      (reshift_where_Ts_becomes_defined P.zs.length row)) :
    ((slicexHI P.zs.length row).getD zbin 0 < 1 / 10 →
        (get_renormalized_buffer P pow10 output).getD i [] =
          row.take P.zs.length ++
            zeroFillBefore zbin (slicexHI P.zs.length row) ++
            row.drop (2 * P.zs.length)) ∧
      (¬ (slicexHI P.zs.length row).getD zbin 0 < 1 / 10 →
        (get_renormalized_buffer P pow10 output).getD i [] = row) ∧
      ((slicexHI P.zs.length row).getD zbin 0 < 1 / 10 → ∀ j < zbin,
        ((get_renormalized_buffer P pow10 output).getD i []).getD
          (P.zs.length + j) 0 = 0) ∧
      (∀ p < P.zs.length,
        ((get_renormalized_buffer P pow10 output).getD i []).getD p 0 =
          row.getD p 0) ∧
      (∀ p, 2 * P.zs.length ≤ p →
        ((get_renormalized_buffer P pow10 output).getD i []).getD p 0 =
          row.getD p 0) ∧
      ((get_renormalized P pow10 output).getD i default).xHI =
        slicexHI P.zs.length ((get_renormalized_buffer P pow10 output).getD i []) := by
  subst hrow hzbin
  have hbuf : (get_renormalized_buffer P pow10 output).getD i [] =
      (processSample P pow10 (output.getD i [])).2 :=
    getD_map_of_lt _ [] [] output i hi
  have hget : (get_renormalized P pow10 output).getD i default =
      (processSample P pow10 (output.getD i [])).1 :=
    getD_map_of_lt _ default [] output i hi
  have hzb := zbinOf_lt P.zs
    (reshift_where_Ts_becomes_defined P.zs.length (output.getD i [])) hzs
  have hnzlen : P.zs.length ≤ (output.getD i []).length := by omega
  have htake : ((output.getD i []).take P.zs.length).length = P.zs.length := by
    simp only [List.length_take]
    omega
  have hxlen : (slicexHI P.zs.length (output.getD i [])).length = P.zs.length :=
    length_slicexHI _ _ hlen
  have hzf : (zeroFillBefore (zbinOf P.zs
      (reshift_where_Ts_becomes_defined P.zs.length (output.getD i [])))
      (slicexHI P.zs.length (output.getD i []))).length = P.zs.length := by
    rw [length_zeroFillBefore, hxlen]
  by_cases hcond : (slicexHI P.zs.length (output.getD i [])).getD
      (zbinOf P.zs (reshift_where_Ts_becomes_defined P.zs.length
        (output.getD i []))) 0 < 1 / 10
  · have hbufeq : (get_renormalized_buffer P pow10 output).getD i [] =
        (output.getD i []).take P.zs.length ++
          zeroFillBefore (zbinOf P.zs
            (reshift_where_Ts_becomes_defined P.zs.length (output.getD i [])))
            (slicexHI P.zs.length (output.getD i [])) ++
          (output.getD i []).drop (2 * P.zs.length) := by
      rw [hbuf]
      simp only [processSample]
      rw [if_pos hcond]
    refine ⟨fun _ => hbufeq, fun h => absurd hcond h, fun _ j hj => ?_,
      fun p hp => ?_, fun p hp => ?_, ?_⟩
    · rw [hbufeq]
      rw [List.getD_append _ _ _ _ (by
        rw [List.length_append, htake, hzf]
        omega)]
      rw [List.getD_append_right _ _ _ _ (by rw [htake]; omega)]
      rw [htake]
      have hjj : P.zs.length + j - P.zs.length = j := by omega
      rw [hjj]
      exact zeroFillBefore_getD_lt _ _ j hj (by rw [hxlen]; omega)
    · rw [hbufeq]
      rw [List.getD_append _ _ _ _ (by
        rw [List.length_append, htake, hzf]
        omega)]
      rw [List.getD_append _ _ _ _ (by rw [htake]; omega)]
      rw [List.getD_eq_getD_get?, List.get?_take (by omega : p < P.zs.length),
        ← List.getD_eq_getD_get?]
    · rw [hbufeq]
      have hAB : ((output.getD i []).take P.zs.length ++
          zeroFillBefore (zbinOf P.zs (reshift_where_Ts_becomes_defined
            P.zs.length (output.getD i [])))
            (slicexHI P.zs.length (output.getD i []))).length =
          2 * P.zs.length := by
        rw [List.length_append, htake, hzf]
        omega
      rw [List.getD_append_right _ _ _ _ (by rw [hAB]; exact hp)]
      rw [hAB]
      rw [List.getD_eq_getD_get?, List.get?_drop]
      rw [show 2 * P.zs.length + (p - 2 * P.zs.length) = p from by omega]
      rw [← List.getD_eq_getD_get?]
    · rw [hget, hbufeq]
      simp only [processSample]
      rw [if_pos hcond]
      exact (view_write_slicexHI P.zs.length _ _ hlen).symm
  · have hbufeq : (get_renormalized_buffer P pow10 output).getD i [] =
        output.getD i [] := by
      rw [hbuf]
      simp only [processSample]
      rw [if_neg hcond]
    refine ⟨fun h => absurd h hcond, fun _ => hbufeq, fun h => absurd h hcond,
      fun p hp => by rw [hbufeq], fun p hp => by rw [hbufeq], ?_⟩
    rw [hget, hbufeq]
    simp only [processSample]
    rw [if_neg hcond]

/-- Concrete instance of C9 at the handcrafted one-sample batch. -/
theorem claim_C9_witness :
    (0 < ([c1row] : List (List ℚ)).length ∧ c1props.zs ≠ [] ∧
        [c1row].getD 0 [] = c1row ∧ 2 * c1props.zs.length ≤ c1row.length) ∧
      (((slicexHI c1props.zs.length c1row).getD
            (zbinOf c1props.zs
              (reshift_where_Ts_becomes_defined c1props.zs.length c1row)) 0 <
            1 / 10 →
          (get_renormalized_buffer c1props id [c1row]).getD 0 [] =
            c1row.take c1props.zs.length ++
              zeroFillBefore
                (zbinOf c1props.zs
                  (reshift_where_Ts_becomes_defined c1props.zs.length c1row))
                (slicexHI c1props.zs.length c1row) ++
              c1row.drop (2 * c1props.zs.length)) ∧
        (¬ (slicexHI c1props.zs.length c1row).getD
            (zbinOf c1props.zs
              (reshift_where_Ts_becomes_defined c1props.zs.length c1row)) 0 <
            1 / 10 →
          (get_renormalized_buffer c1props id [c1row]).getD 0 [] = c1row) ∧
        ((slicexHI c1props.zs.length c1row).getD
            (zbinOf c1props.zs
              (reshift_where_Ts_becomes_defined c1props.zs.length c1row)) 0 <
            1 / 10 →
          ∀ j < zbinOf c1props.zs
              (reshift_where_Ts_becomes_defined c1props.zs.length c1row),
            ((get_renormalized_buffer c1props id [c1row]).getD 0 []).getD
              (c1props.zs.length + j) 0 = 0) ∧
        (∀ p < c1props.zs.length,
          ((get_renormalized_buffer c1props id [c1row]).getD 0 []).getD p 0 =
            c1row.getD p 0) ∧
        (∀ p, 2 * c1props.zs.length ≤ p →
          ((get_renormalized_buffer c1props id [c1row]).getD 0 []).getD p 0 =
            c1row.getD p 0) ∧
        ((get_renormalized c1props id [c1row]).getD 0 default).xHI =
          slicexHI c1props.zs.length
            ((get_renormalized_buffer c1props id [c1row]).getD 0 [])) :=
  ⟨⟨by norm_num, by simp [c1props], rfl, by norm_num [c1props, c1row]⟩,
    claim_C9 c1props id [c1row] 0 c1row _ (by norm_num) (by simp [c1props]) rfl
      (by norm_num [c1props, c1row]) rfl⟩

/-! ## `properties.py`: `EmulatorProperties.normalized_quantities` and
`DefaultRawEmulatorOutput.renormalize` -/

/-- Python `s.endswith(suff)`, written on the character lists so a witness
can evaluate it. -/
def pyEndsWith (s suff : String) : Bool :=
  decide (s.data.drop (s.data.length - suff.data.length) = suff.data)

/-- Python `s.split("_")[0]`: the characters before the first underscore
(the whole string when there is none). -/
def splitHeadUnderscore (s : String) : String :=
  String.mk (s.data.takeWhile fun c => !(c == '_'))

/-- `EmulatorProperties.normalized_quantities` (properties.py lines 13-16):
`[k.split("_")[0] for k in self._data if k.endswith("_mean")]`. -/
def normalized_quantities (keys : List String) : List String :=
  (keys.filter fun k => pyEndsWith k "_mean").map splitHeadUnderscore

/-- The archive contents that `renormalize` consumes: the key list of the
`.npz` file and, per quantity name, the `{name}_mean` / `{name}_std`
constants and the raw segment `getattr(self, name)`.  The numeric values
live in the binary archive outside the source tree and stay abstract. -/
structure EmulatorPropertiesData where
  keys : List String
  meanOf : String → ℚ
  stdOf : String → ℚ
  segOf : String → List ℚ

/-- The `ValueError` message of `renormalize` (outputs.py lines 235-237);
it names the offending quantity. -/
def renormErrMsg (name : String) : String :=
  "Cannot renormalize " ++ name ++ ". It is not a normalized quantity."

/-- `DefaultRawEmulatorOutput.renormalize` (outputs.py lines 227-240). -/
def renormalize (P : EmulatorPropertiesData) (name : String) :
    Except String (List ℚ) :=
  if name ∈ normalized_quantities P.keys then
    .ok ((P.segOf name).map fun x => P.meanOf name + P.stdOf name * x)
  else .error (renormErrMsg name)

/-- C5: `renormalize(name)` raises a ValueError whose message names the
quantity exactly when `name` is not among the quantities that own a
`_mean` key in the constants archive; otherwise it returns
`mean + std * raw_segment`. -/
theorem claim_C5 (P : EmulatorPropertiesData) (name : String) :
    (name ∉ normalized_quantities P.keys →
        renormalize P name = .error (renormErrMsg name)) ∧
      (name ∈ normalized_quantities P.keys →
        renormalize P name =
          .ok ((P.segOf name).map fun x => P.meanOf name + P.stdOf name * x)) ∧
      renormErrMsg name =
        "Cannot renormalize " ++ name ++ ". It is not a normalized quantity." := by
  refine ⟨fun h => ?_, fun h => ?_, rfl⟩
  · rw [renormalize, if_neg h]
  · rw [renormalize, if_pos h]

/-- The keys that `DefaultEmulatorProperties.__init__` (properties.py lines
22-52) reads out of `emulator_constants.npz`.  `get_renormalized` calls
`getattr(self, name)` for every `*_mean` key, so the archive has exactly
these `_mean` keys (any extra one would crash the shipped code and its
tests). -/
def defaultArchiveKeys : List String :=
  ["zs", "limits", "ks", "PS_mean", "PS_std", "Tb_mean", "Tb_std", "Ts_mean",
    "Ts_std", "tau_mean", "tau_std", "UVLFs_mean", "UVLFs_std", "PS_err",
    "Tb_err", "Ts_err", "xHI_err", "tau_err", "UVLFs_err", "UVLFs_logerr"]

/-- The default archive with its key list; the numeric constants are
irrelevant to C5 and fixed arbitrarily. -/
def defaultEmulatorArchive : EmulatorPropertiesData :=
  ⟨defaultArchiveKeys, fun _ => 0, fun _ => 1, fun _ => []⟩

/-- On the default archive the normalized quantities compute to exactly
PS, Tb, Ts, tau and UVLFs. -/
theorem normalized_quantities_default :
    normalized_quantities defaultArchiveKeys =
      ["PS", "Tb", "Ts", "tau", "UVLFs"] := by decide

/-- Concrete instance of C5: `xHI` has no `_mean` key, so de-normalizing it
fails with the named domain error. -/
theorem claim_C5_witness :
    "xHI" ∉ normalized_quantities defaultEmulatorArchive.keys ∧
      renormalize defaultEmulatorArchive "xHI" = .error (renormErrMsg "xHI") :=
  ⟨by decide, (claim_C5 defaultEmulatorArchive "xHI").1 (by decide)⟩

/-! ## `outputs.py`: `EmulatorOutput.write`

The filesystem is a map from path strings to file contents; a saved
`.npz` file is the dict `np.savez` received.  `D` abstracts the array
payloads (their values never matter to C7). -/

/-- `np.savez(fname, ...)` appends `.npz` when `fname` does not already end
with it (this is numpy behavior the repo's own test relies on:
`write(dir / "test_writing")` is read back from `test_writing.npz`). -/
def npzTarget (fname : String) : String :=
  if pyEndsWith fname ".npz" then fname else fname ++ ".npz"

/-- `np.savez` as a filesystem update. -/
def np_savez {D : Type} (fs : String → Option (List (String × D)))
    (fname : String) (payload : List (String × D)) :
    String → Option (List (String × D)) :=
  fun p => if p = npzTarget fname then some payload else fs p

/-- `getattr(self, k)` on the output dataclass: `attrs` is
`self.__dict__`.  (`write` only ever looks up existing field names; a
missing name, which would raise `AttributeError`, is modelled by skipping
the key.) -/
def lookupAttr {D : Type} (attrs : List (String × D)) (k : String) : Option D :=
  (attrs.find? fun a => a.1 == k).map Prod.snd

/-- The dict handed to `np.savez` (outputs.py lines 87-89): the stored
attributes, plus the inputs under the key `"inputs"` when `theta` is
given. -/
def writePayload {D : Type} (attrs : List (String × D)) (theta : Option D)
    (store : Option (List String)) : List (String × D) :=
  let st := match store with
    | none => attrs.map Prod.fst
    | some s => s
  let out := st.filterMap fun k => (lookupAttr attrs k).map fun v => (k, v)
  match theta with
  | none => out
  | some th => out ++ [("inputs", th)]

/-- The `ValueError` message of the clobber check (outputs.py line 85). -/
def writeExistsMsg (fname : String) : String :=
  "File " ++ fname ++ " exists and clobber=False."

/-- `EmulatorOutput.write` (outputs.py lines 53-91): default the store list,
check `pth.exists() and not clobber` before anything is written, then save.
Returns the raised exception (if any) and the filesystem afterwards. -/
def EmulatorOutput.write {D : Type} (attrs : List (String × D))
    (fs : String → Option (List (String × D))) (fname : String)
    (theta : Option D) (store : Option (List String)) (clobber : Bool) :
    Option PyErr × (String → Option (List (String × D))) :=
  if (fs fname).isSome && !clobber then
    (some (.valueError (writeExistsMsg fname)), fs)
  else
    (none, np_savez fs fname (writePayload attrs theta store))

/-- C7: when the file at the given path already exists, `write` with
`clobber=False` fails with the domain error naming the path and leaves the
filesystem — in particular the pre-existing file — exactly as it was;
with `clobber=True` it raises nothing and persists the payload. -/
theorem claim_C7 {D : Type} (attrs : List (String × D))
    (fs : String → Option (List (String × D))) (fname : String)
    (theta : Option D) (store : Option (List String))
    (hex : (fs fname).isSome = true) :
    EmulatorOutput.write attrs fs fname theta store false =
        (some (.valueError (writeExistsMsg fname)), fs) ∧
      (EmulatorOutput.write attrs fs fname theta store true).1 = none ∧
      (EmulatorOutput.write attrs fs fname theta store true).2 (npzTarget fname) =
        some (writePayload attrs theta store) := by
  refine ⟨?_, ?_, ?_⟩
  · rw [EmulatorOutput.write, if_pos (by rw [hex]; rfl)]
  · rw [EmulatorOutput.write, if_neg (by simp)]
  · rw [EmulatorOutput.write, if_neg (by simp)]
    show np_savez fs fname (writePayload attrs theta store) (npzTarget fname) = _
    rw [np_savez, if_pos rfl]

/-- A one-file filesystem holding `out.npz`. -/
def demoFS : String → Option (List (String × ℕ)) :=
  fun p => if p = "out.npz" then some [] else none

/-- Concrete instance of C7 at `demoFS`. -/
theorem claim_C7_witness :
    (demoFS "out.npz").isSome = true ∧
      (EmulatorOutput.write [("Tb", 1)] demoFS "out.npz" none none false =
          (some (.valueError (writeExistsMsg "out.npz")), demoFS) ∧
        (EmulatorOutput.write [("Tb", 1)] demoFS "out.npz" none none true).1 =
          none ∧
        (EmulatorOutput.write [("Tb", 1)] demoFS "out.npz" none none true).2
            (npzTarget "out.npz") =
          some (writePayload [("Tb", 1)] none none)) :=
  ⟨by decide, claim_C7 [("Tb", 1)] demoFS "out.npz" none none (by decide)⟩

/-! ## `get_emulator.py`: `get_emu_data`

The environment (config flags, cache and network state, the repository's
tags) is a record; `get_emu_data` (get_emulator.py lines 15-69) is a
straight-line translation: acquire the repo (clone only when no cached copy
and the network is enabled), run the minimum-file-size check, try the pull
inside `try/except Exception` (so a disabled network or any pull failure
only warns), then resolve the requested version against the `v*` tags. -/

structure EmuDataEnv where
  cached : Bool
  disableNetwork : Bool
  cloneOk : Bool
  modelFileExists : Bool
  modelFileSize : ℕ
  pullOk : Bool
  tags : List String

inductive EmuErr where
  | cloneFailed
  | nameError
  | runtimeError (msg : String)
  | valueError (msg : String)
deriving DecidableEq

/-- The warning issued when the pull step is skipped
(`warn(f"Skipping the pulling step. ...")`). -/
def pullWarnMsg : String := "Skipping the pulling step."

/-- The remediation message of the size-check `RuntimeError` (abridged). -/
def cloneHelpMsg : String :=
  "The emulator huggingface repo was not cloned properly."

/-- `f"Version {version} not available. Must be one of {versions}. "`. -/
def versionErrMsg (version : String) (versions : List String) : String :=
  "Version " ++ version ++ " not available. Must be one of " ++
    toString versions ++ ". "

/-- `sorted([tag.name.lower() for tag in repo.tags if
tag.name.lower().startswith("v")])`; `sorted` only reorders and the list is
used for membership, so the sort is omitted. -/
def repoVersions (tags : List String) : List String :=
  (tags.map String.toLower).filter fun s => s.startsWith "v"

/-- `get_emu_data(version)`.  The result is the list of emitted warnings
and the ref finally checked out. -/
def get_emu_data (env : EmuDataEnv) (version : String) :
    Except EmuErr (List String × String) :=
  if !env.cached && !env.disableNetwork && !env.cloneOk then .error .cloneFailed
  else if !env.modelFileExists || env.modelFileSize < 1000000 then
    .error (.runtimeError cloneHelpMsg)
  else if !env.cached && env.disableNetwork then
    -- `repo` was never bound; the pull inside try/except still only warns,
    -- but `repo.tags` afterwards raises NameError.  (Unreachable on a real
    -- filesystem: the cached directory is missing yet the size check passed.)
    .error .nameError
  else
    let warnings := if env.disableNetwork || !env.pullOk then [pullWarnMsg]
      else []
    if version = "latest" then .ok (warnings, "main")
    else if (repoVersions env.tags).contains version.toLower then
      .ok (warnings, version)
    else .error (.valueError (versionErrMsg version (repoVersions env.tags)))

/-- C8: with a cached copy that passes the size check, a failing (or
disabled-network) pull never surfaces as an error — `get_emu_data` warns
and completes with the cached copy (any error can only come from the
version lookup, which the hypothesis rules out). -/
theorem claim_C8 (env : EmuDataEnv) (version : String)
    (hc : env.cached = true) (hfe : env.modelFileExists = true)
    (hsz : 1000000 ≤ env.modelFileSize)
    (hver : version = "latest" ∨
      (repoVersions env.tags).contains version.toLower = true) :
    ∃ w r, get_emu_data env version = .ok (w, r) ∧
      (env.disableNetwork = true ∨ env.pullOk = false → w = [pullWarnMsg]) := by
  rw [get_emu_data]
  rw [if_neg (by rw [hc]; simp)]
  rw [if_neg (by rw [hfe]; simp; omega)]
  rw [if_neg (by rw [hc]; simp)]
  rcases hver with h | h
  · rw [if_pos h]
    refine ⟨_, _, rfl, fun hw => ?_⟩
    rcases hw with hw | hw
    · simp [hw]
    · simp [hw]
  · by_cases hl : version = "latest"
    · rw [if_pos hl]
      refine ⟨_, _, rfl, fun hw => ?_⟩
      rcases hw with hw | hw
      · simp [hw]
      · simp [hw]
    · rw [if_neg hl, if_pos h]
      refine ⟨_, _, rfl, fun hw => ?_⟩
      rcases hw with hw | hw
      · simp [hw]
      · simp [hw]

/-- A cached, network-disabled environment. -/
def demoEnv : EmuDataEnv :=
  ⟨true, true, false, true, 1000000, false, []⟩

/-- Concrete instance of C8: network disabled and pull failing, yet
`get_emu_data` succeeds with a warning. -/
theorem claim_C8_witness :
    (demoEnv.cached = true ∧ demoEnv.modelFileExists = true ∧
        1000000 ≤ demoEnv.modelFileSize ∧
        ("latest" = "latest" ∨
          (repoVersions demoEnv.tags).contains "latest".toLower = true)) ∧
      ∃ w r, get_emu_data demoEnv "latest" = .ok (w, r) ∧
        (demoEnv.disableNetwork = true ∨ demoEnv.pullOk = false →
          w = [pullWarnMsg]) :=
  ⟨⟨rfl, rfl, by norm_num [demoEnv], Or.inl rfl⟩,
    claim_C8 demoEnv "latest" rfl rfl (by norm_num [demoEnv]) (Or.inl rfl)⟩

end Py21cmEMU
